import Mathlib

/-!
Verification of the krishna PALS driver (src/krishna) and its supporting
external spill store (the morass) against the repository specification.

The development shallowly embeds:
  * the flag-processing step of `init` in src/krishna/krishna.go that
    resolves the `-mem` memory-ceiling flag into the package-level
    pointer `mem`;
  * the driver state machine of `main` in src/krishna/krishna.go as an
    event-trace semantics parameterised over an environment supplying the
    outcomes of the external library calls (packing, morass creation,
    Optimise, BuildIndex, Align, writing);
  * the mutex-guarded batch writer `WriteDPHits` of src/krishna/write.go
    together with a small trace semantics for two concurrent callers of a
    single mutex;
  * the morass push/sort/replay cycle, modelled from the specification
    (the morass implementation itself is not part of this repository's
    sources; only its caller is).

Go machine integers are modelled as `Int` (no arithmetic is performed on
them by the embedded code, only comparisons with literals), `uint64` flag
values as `Nat`, and the only `float64` values involved (`dpid` and
`DPParams.MinId`) as `Rat`: the embedded code only compares them against
zero and stores them, so the model is exact for every representable
non-NaN value.
-/

/-! ## Flag processing for the memory ceiling (src/krishna/krishna.go, init)

The Go source declares `var mem *uintptr` at package level (zero value
`nil`) and in `init` executes

    if maxMem == 0 {
        mem = nil
    } else {
        *mem = uintptr(maxMem)
    }

A store through a nil pointer is a Go runtime panic.  We model the
pointer as `Option Nat` and the store `*mem = v` as a function that
faults when the pointer is `none`.
-/

/-- A Go runtime fault reachable by the embedded code. -/
inductive GoPanic where
  | nilDeref
deriving DecidableEq, Repr

/-- Store through a `*uintptr`: `*p = v` panics when `p` is nil. -/
def storeThrough (p : Option Nat) (v : Nat) : Except GoPanic (Option Nat) :=
  match p with
  | none => .error .nilDeref
  | some _ => .ok (some v)

/-- The `-mem` flag resolution of `init` (krishna.go lines 98-102),
starting from the package-level zero value `mem = nil`: for `maxMem = 0`
it leaves the pointer nil, otherwise it executes `*mem = uintptr(maxMem)`
on the nil pointer. -/
def initMem (maxMem : Nat) : Except GoPanic (Option Nat) :=
  let mem : Option Nat := none
  if maxMem = 0 then .ok mem
  else storeThrough mem maxMem

/-! ## DP threshold overrides (src/krishna/krishna.go, lines 216-221) -/

/-- The two dynamic-programming thresholds of `pals.PALS.DPParams` that
the driver may override after `Optimise`. -/
structure DPParams where
  MinHitLength : Int
  MinId : Rat
deriving DecidableEq, Repr

/-- The override step of `main`:

    if dpMinHitLen != 0 { pa[0].DPParams.MinHitLength = dpMinHitLen }
    if dpMinId != 0 { pa[0].DPParams.MinId = dpMinId }

applied to the `DPParams` produced by `Optimise`. -/
def applyDPOverrides (p : DPParams) (dpMinHitLen : Int) (dpMinId : Rat) : DPParams :=
  let p1 := if dpMinHitLen ≠ 0 then { p with MinHitLength := dpMinHitLen } else p
  if dpMinId ≠ 0 then { p1 with MinId := dpMinId } else p1

/-- C1 (code_bug evidence): a nonzero `-mem` value faults in `init` with
a nil-pointer dereference, and a zero `-mem` leaves the pointer nil. -/
theorem C1_nonzero_mem_flag_faults :
    initMem 1048576 = Except.error GoPanic.nilDeref ∧ initMem 0 = Except.ok none := by
  constructor <;> rfl

/-- C9: the Optimise-derived `MinHitLength` is replaced by the `dplen`
flag iff that flag is nonzero, and `MinId` is replaced by the `dpid` flag
iff that flag is nonzero; in particular passing zero for both leaves the
Optimise-derived parameters untouched, so neither threshold can be
explicitly set to zero. -/
theorem C9_dp_override_zero_sentinel :
    ∀ (p : DPParams) (len : Int) (id : Rat),
      (applyDPOverrides p len id).MinHitLength = (if len ≠ 0 then len else p.MinHitLength) ∧
      (applyDPOverrides p len id).MinId = (if id ≠ 0 then id else p.MinId) ∧
      applyDPOverrides p 0 0 = p := by
  intro p len id
  refine ⟨?_, ?_, ?_⟩ <;> simp only [applyDPOverrides, ne_eq, ite_not] <;>
    rcases eq_or_ne len 0 with hl | hl <;> rcases eq_or_ne id 0 with hi | hi <;>
    simp [hl, hi]

/-! ## The driver state machine (src/krishna/krishna.go, main)

`main` is embedded as an event-trace semantics.  The environment `Env`
supplies the outcome of every external library call the driver makes
(FASTA packing, morass creation, `Optimise`, `BuildIndex`, `Align`,
trapezoid and hit writing); the driver itself decides which calls happen,
in which order, which of them run on spawned goroutines, and when the run
dies with a fatal log message (`log.Fatal*` exits the process with a
non-zero code).  The model covers `main` from the sequence-loading step
on; profiling and logging setup emit no events relevant to any claim.
-/

/-- A packed sequence handle as returned by `packSequence`
(src/krishna/packseqs.go): all the driver inspects is its length. -/
structure Packed where
  id : Nat
  len : Nat
deriving DecidableEq, Repr

/-- Observable driver events, in the order `main` performs them. -/
inductive Ev where
  | packSeq (name : String)
  | morassNew (inst : Nat)
  | palsNew (inst : Nat)
  | optimise
  | buildIndex
  | share
  | align (inst : Nat) (comp : Bool)
  | writeTraps (comp : Bool)
  | writeHits (inst : Nat) (comp : Bool)
  | wgWait
  | cleanUp (inst : Nat)
  | finished
  | fatal (msg : String)
deriving DecidableEq, Repr

/-- The driver configuration after flag parsing (the package-level flag
variables of krishna.go that `main` reads). -/
structure Config where
  queryName : String
  targetName : String
  selfCompare : Bool
  sameStrand : Bool
  outFile : String
  trapFile : Bool
  dpMinHitLen : Int
  dpMinId : Rat
  threads : Int

/-- Outcomes of the external library calls made by `main`.  Each
`Except` mirrors the `error` result (or internal `log.Fatalf`) of the
corresponding biogo library call. -/
structure Env where
  pack : String → Except String Packed
  openOut : Except String Unit
  morassNew : Nat → Except String Unit
  optimise : Except String DPParams
  buildIndex : Except String Unit
  align : Nat → Bool → Except String Unit
  writeTraps : Bool → Except String Unit
  writeHits : Nat → Bool → Except String Unit

/-- Sequence loading (krishna.go lines 152-181): the target is required
and packed first, then checked for zero length; in a non-self comparison
the query is required, packed and checked likewise; in a self comparison
the query is bound to the target and no further packing happens. -/
def packPhase (cfg : Config) (env : Env) : List Ev × Except String (Packed × Packed) :=
  if cfg.targetName = "" then
    ([.fatal "No target provided."], .error "No target provided.")
  else
    match env.pack cfg.targetName with
    | .error e =>
        ([.packSeq cfg.targetName, .fatal ("Internal error: " ++ e)], .error e)
    | .ok target =>
      if target.len = 0 then
        ([.packSeq cfg.targetName, .fatal "Target sequence is zero length."],
         .error "Target sequence is zero length.")
      else if cfg.selfCompare then
        ([.packSeq cfg.targetName], .ok (target, target))
      else if cfg.queryName = "" then
        ([.packSeq cfg.targetName, .fatal "No query provided in non-self comparison."],
         .error "No query provided in non-self comparison.")
      else
        match env.pack cfg.queryName with
        | .error e =>
            ([.packSeq cfg.targetName, .packSeq cfg.queryName,
              .fatal ("Internal error: " ++ e)], .error e)
        | .ok query =>
          if query.len = 0 then
            ([.packSeq cfg.targetName, .packSeq cfg.queryName,
              .fatal "Query sequence is zero length."],
             .error "Query sequence is zero length.")
          else
            ([.packSeq cfg.targetName, .packSeq cfg.queryName], .ok (target, query))

/-- Writer and PALS-instance construction (krishna.go lines 183-211):
opening the output file may be fatal; then one morass and one PALS
instance are created, and a second pair when `threads > 1`; a morass
creation failure is fatal. -/
def setupPhase (cfg : Config) (env : Env) : List Ev × Except String Unit :=
  if cfg.outFile ≠ "" ∧ env.openOut.isOk = false then
    ([.fatal "Could not open output file"], .error "Could not open output file")
  else
    match env.morassNew 0 with
    | .error e => ([.morassNew 0, .fatal e], .error e)
    | .ok _ =>
      if 1 < cfg.threads then
        match env.morassNew 1 with
        | .error e =>
            ([.morassNew 0, .palsNew 0, .morassNew 1, .fatal e], .error e)
        | .ok _ =>
            ([.morassNew 0, .palsNew 0, .morassNew 1, .palsNew 1], .ok ())
      else
        ([.morassNew 0, .palsNew 0], .ok ())

/-- `pa[0].Optimise(minHitLen, minId)` followed by the DP threshold
overrides (krishna.go lines 213-221).  The resulting `DPParams` are the
Optimise-derived ones with the zero-sentinel overrides applied. -/
def optimisePhase (cfg : Config) (env : Env) : List Ev × Except String DPParams :=
  match env.optimise with
  | .error e => ([.optimise, .fatal e], .error e)
  | .ok d => ([.optimise], .ok (applyDPOverrides d cfg.dpMinHitLen cfg.dpMinId))

/-- `pa[0].BuildIndex()` and, when a second PALS instance exists,
`pa[1].Share(pa[0])` (krishna.go lines 235-240). -/
def indexPhase (cfg : Config) (env : Env) : List Ev × Except String Unit :=
  match env.buildIndex with
  | .error e => ([.buildIndex, .fatal e], .error e)
  | .ok _ =>
    if 1 < cfg.threads then ([.buildIndex, .share], .ok ())
    else ([.buildIndex], .ok ())

/-- The optional trapezoid dump of a strand pass (krishna.go lines
253-259 and 279-285): when `-traps` is set, `WriteTraps` runs and its
error is fatal. -/
def trapStep (cfg : Config) (env : Env) (comp : Bool) : List Ev × Bool :=
  if cfg.trapFile then
    match env.writeTraps comp with
    | .error e => ([.writeTraps comp, .fatal e], false)
    | .ok _ => ([.writeTraps comp], true)
  else ([], true)

/-- One strand pass (the body shared by the goroutine closure and the
inline branch, krishna.go lines 247-293): `Align`, the optional
trapezoid dump, then `WriteDPHits`; any error is fatal.  Returns the
events of the pass and whether it completed without a fatal error. -/
def passBody (cfg : Config) (env : Env) (inst : Nat) (comp : Bool) : List Ev × Bool :=
  match env.align inst comp with
  | .error e => ([.align inst comp, .fatal e], false)
  | .ok _ =>
    if (trapStep cfg env comp).2 then
      match env.writeHits inst comp with
      | .error e =>
          (.align inst comp :: (trapStep cfg env comp).1 ++ [.writeHits inst comp, .fatal e],
           false)
      | .ok _ =>
          (.align inst comp :: (trapStep cfg env comp).1 ++ [.writeHits inst comp], true)
    else (.align inst comp :: (trapStep cfg env comp).1, false)

/-- The alignment loop (krishna.go lines 242-295).  With `threads > 1`
and both strands requested the two passes are spawned as goroutines
(each on its own PALS instance); otherwise the requested passes run
inline on `pa[0]`, the forward pass first.  Returns the inline events,
the goroutine bodies, and whether every executed pass completed. -/
def alignPhase (cfg : Config) (env : Env) : List Ev × List (List Ev) × Bool :=
  let both := !cfg.sameStrand
  if 1 < cfg.threads ∧ both = true then
    ([], [(passBody cfg env 0 false).1, (passBody cfg env 1 true).1],
     (passBody cfg env 0 false).2 && (passBody cfg env 1 true).2)
  else
    let p0 := passBody cfg env 0 false
    if p0.2 then
      if both then
        let p1 := passBody cfg env 0 true
        (p0.1 ++ p1.1, [], p1.2)
      else (p0.1, [], true)
    else (p0.1, [], false)

/-- The tail of `main` (krishna.go lines 296-302): `wg.Wait()`, then
`CleanUp` on every PALS instance, then the final log line. -/
def postPhase (cfg : Config) : List Ev :=
  .wgWait :: (if 1 < cfg.threads then [.cleanUp 0, .cleanUp 1] else [.cleanUp 0]) ++ [.finished]

/-- The observable outcome of one driver run: the main-goroutine events
before the `wg.Wait()` join point, the bodies of any spawned worker
goroutines, the main-goroutine events after the join point, the process
exit code, and the target/query/DP-parameter bindings reached. -/
structure DriverRun where
  pre : List Ev
  workers : List (List Ev)
  post : List Ev
  exit : Nat
  target : Option Packed
  query : Option Packed
  dp : Option DPParams

/-- The driver state machine of `main`, assembled from its phases with
the fatal-exit short-circuiting of `log.Fatal`: a fatal anywhere kills
the process (exit code 1) and nothing later runs. -/
def driverRun (cfg : Config) (env : Env) : DriverRun :=
  match packPhase cfg env with
  | (e1, .error _) => ⟨e1, [], [], 1, none, none, none⟩
  | (e1, .ok (tgt, qry)) =>
    match setupPhase cfg env with
    | (e2, .error _) => ⟨e1 ++ e2, [], [], 1, some tgt, some qry, none⟩
    | (e2, .ok _) =>
      match optimisePhase cfg env with
      | (e3, .error _) => ⟨e1 ++ e2 ++ e3, [], [], 1, some tgt, some qry, none⟩
      | (e3, .ok dp) =>
        match indexPhase cfg env with
        | (e4, .error _) =>
            ⟨e1 ++ e2 ++ e3 ++ e4, [], [], 1, some tgt, some qry, some dp⟩
        | (e4, .ok _) =>
          match alignPhase cfg env with
          | (e5, ws, ok) =>
            if ok then
              ⟨e1 ++ e2 ++ e3 ++ e4 ++ e5, ws, postPhase cfg, 0,
               some tgt, some qry, some dp⟩
            else
              ⟨e1 ++ e2 ++ e3 ++ e4 ++ e5, ws, [], 1, some tgt, some qry, some dp⟩

/-- The canonical (sequential) whole-run event list. -/
def DriverRun.trace (r : DriverRun) : List Ev :=
  r.pre ++ r.workers.flatten ++ r.post

/-! ## Event classifiers and temporal scans -/

/-- Is the event a `packSeq`? -/
def isPackSeq : Ev → Bool
  | .packSeq _ => true
  | _ => false

/-- Is the event an `optimise`? -/
def isOptimise : Ev → Bool
  | .optimise => true
  | _ => false

/-- Is the event a `buildIndex`? -/
def isBuildIndex : Ev → Bool
  | .buildIndex => true
  | _ => false

/-- Is the event an `align`? -/
def isAlign : Ev → Bool
  | .align _ _ => true
  | _ => false

/-- Is the event a `cleanUp`? -/
def isCleanUp : Ev → Bool
  | .cleanUp _ => true
  | _ => false

/-- Is the event the `wg.Wait()` join point? -/
def isWgWait : Ev → Bool
  | .wgWait => true
  | _ => false

/-- Does the event use a PALS instance's morass/index (the operations a
worker goroutine performs)? -/
def isWorkerOp : Ev → Bool
  | .align _ _ => true
  | .writeTraps _ => true
  | .writeHits _ _ => true
  | _ => false

/-- Does the event mutate the k-mer index or the packed sequence store
(at driver level these are exactly index building and packing)? -/
def isIndexMut : Ev → Bool
  | .buildIndex => true
  | .packSeq _ => true
  | _ => false

/-- No `q`-event occurs strictly before the first `p`-event (scanning
left to right; vacuously true when no `p`-event occurs, provided no
`q`-event does either). -/
def noneBefore (p q : Ev → Bool) : List Ev → Bool
  | [] => true
  | e :: r => if p e then true else !q e && noneBefore p q r

/-- After any `p`-event, no `q`-event ever occurs. -/
def noneAfter (p q : Ev → Bool) : List Ev → Bool
  | [] => true
  | e :: r => (if p e then r.all (fun y => !q y) else true) && noneAfter p q r

theorem noneBefore_append_left {p q : Ev → Bool} {u : List Ev} (v : List Ev)
    (hu : ∀ e ∈ u, p e = false ∧ q e = false) :
    noneBefore p q (u ++ v) = noneBefore p q v := by
  induction u with
  | nil => rfl
  | cons a t ih =>
    have ha := hu a (by simp)
    simp only [List.cons_append, noneBefore, ha.1, ha.2]
    simp [ih fun e he => hu e (by simp [he])]

theorem noneBefore_append_hit {p q : Ev → Bool} {u : List Ev} (v : List Ev)
    (hu : noneBefore p q u = true) (hp : u.any p = true) :
    noneBefore p q (u ++ v) = true := by
  induction u with
  | nil => simp at hp
  | cons a t ih =>
    rcases hb : p a with _ | _
    · simp only [noneBefore, hb] at hu
      rw [if_neg (by simp)] at hu
      rw [Bool.and_eq_true, Bool.not_eq_true'] at hu
      simp only [List.any_cons, hb, Bool.false_or] at hp
      simp [noneBefore, hb, hu.1, ih hu.2 hp]
    · simp [noneBefore, hb]

theorem noneAfter_of_no_p {p q : Ev → Bool} {u : List Ev}
    (hu : ∀ e ∈ u, p e = false) : noneAfter p q u = true := by
  induction u with
  | nil => rfl
  | cons a t ih =>
    simp [noneAfter, hu a (by simp), ih fun e he => hu e (by simp [he])]

theorem noneAfter_of_no_q {p q : Ev → Bool} {u : List Ev}
    (hu : ∀ e ∈ u, q e = false) : noneAfter p q u = true := by
  induction u with
  | nil => rfl
  | cons a t ih =>
    have ht : noneAfter p q t = true := ih fun e he => hu e (by simp [he])
    have hall : t.all (fun y => !q y) = true := by
      simp only [List.all_eq_true]
      intro e he
      simp [hu e (by simp [he])]
    by_cases hpa : p a = true <;> simp [noneAfter, hpa, hall, ht]

theorem noneAfter_append {p q : Ev → Bool} {u v : List Ev}
    (hu : noneAfter p q u = true) (hv : noneAfter p q v = true)
    (hcross : u.any p = true → ∀ e ∈ v, q e = false) :
    noneAfter p q (u ++ v) = true := by
  induction u with
  | nil => simpa using hv
  | cons a t ih =>
    simp only [noneAfter, Bool.and_eq_true] at hu
    by_cases hpa : p a = true
    · have hva : ∀ e ∈ v, q e = false := hcross (by simp [hpa])
      have hall : (t ++ v).all (fun y => !q y) = true := by
        simp only [List.all_eq_true]
        intro e he
        rcases List.mem_append.mp he with h | h
        · have := hu.1
          simp only [hpa, if_true, List.all_eq_true] at this
          exact this e h
        · simp [hva e h]
      have hrest := ih hu.2 fun hany => hcross (by simp [List.any_cons, hany, Bool.or_true])
      simp [noneAfter, hpa, hall, hrest]
    · have hrest := ih hu.2 fun hany => hcross (by simp [List.any_cons, hany, Bool.or_true])
      simp [noneAfter, hpa, hrest]

/-! ## Interleavings and admissible schedules -/

/-- `Interleaves s xs ys`: `s` is a merge of `xs` and `ys` preserving the
internal order of each. -/
inductive Interleaves {α : Type} : List α → List α → List α → Prop where
  | nil : Interleaves [] [] []
  | left {s xs ys} (a : α) : Interleaves s xs ys → Interleaves (a :: s) (a :: xs) ys
  | right {s xs ys} (a : α) : Interleaves s xs ys → Interleaves (a :: s) xs (a :: ys)

/-- `InterleavesN ws s`: `s` is a merge of all the lists in `ws`. -/
def InterleavesN {α : Type} : List (List α) → List α → Prop
  | [], s => s = []
  | x :: xs, s => ∃ u, InterleavesN xs u ∧ Interleaves s x u

theorem Interleaves.nil_left {α : Type} {s ys : List α} :
    Interleaves s [] ys → s = ys := by
  intro h
  induction ys generalizing s with
  | nil => cases h; rfl
  | cons a t ih => cases h with
    | right _ h => rw [ih h]

theorem Interleaves.nil_right {α : Type} {s xs : List α} :
    Interleaves s xs [] → s = xs := by
  intro h
  induction xs generalizing s with
  | nil => cases h; rfl
  | cons a t ih => cases h with
    | left _ h => rw [ih h]

theorem Interleaves.append_self {α : Type} (xs ys : List α) :
    Interleaves (xs ++ ys) xs ys := by
  induction xs with
  | nil =>
    simp only [List.nil_append]
    induction ys with
    | nil => exact .nil
    | cons a t ih => exact .right a ih
  | cons a t ih => exact .left a ih

theorem Interleaves.mem_split {α : Type} {s xs ys : List α} (h : Interleaves s xs ys) :
    ∀ a ∈ s, a ∈ xs ∨ a ∈ ys := by
  induction h with
  | nil => intro a ha; cases ha
  | left b _ ih =>
    intro a ha
    rcases List.mem_cons.mp ha with rfl | ha
    · exact Or.inl (by simp)
    · rcases ih a ha with h | h
      · exact Or.inl (by simp [h])
      · exact Or.inr h
  | right b _ ih =>
    intro a ha
    rcases List.mem_cons.mp ha with rfl | ha
    · exact Or.inr (by simp)
    · rcases ih a ha with h | h
      · exact Or.inl h
      · exact Or.inr (by simp [h])

theorem Interleaves.countP_eq {α : Type} (p : α → Bool) {s xs ys : List α}
    (h : Interleaves s xs ys) :
    s.countP p = xs.countP p + ys.countP p := by
  induction h with
  | nil => rfl
  | left a _ ih => simp only [List.countP_cons, ih]; omega
  | right a _ ih => simp only [List.countP_cons, ih]; omega

theorem InterleavesN.mem_flat {α : Type} {ws : List (List α)} {s : List α}
    (h : InterleavesN ws s) : ∀ a ∈ s, ∃ w ∈ ws, a ∈ w := by
  induction ws generalizing s with
  | nil => intro a ha; rw [h] at ha; cases ha
  | cons x xs ih =>
    obtain ⟨u, hu, hint⟩ := h
    intro a ha
    rcases hint.mem_split a ha with h | h
    · exact ⟨x, by simp, h⟩
    · obtain ⟨w, hw, haw⟩ := ih hu a h
      exact ⟨w, by simp [hw], haw⟩

theorem InterleavesN.countP_sum {α : Type} (p : α → Bool) {ws : List (List α)} {s : List α}
    (h : InterleavesN ws s) :
    s.countP p = (ws.map (List.countP p)).sum := by
  induction ws generalizing s with
  | nil => rw [h]; rfl
  | cons x xs ih =>
    obtain ⟨u, hu, hint⟩ := h
    simp [hint.countP_eq p, ih hu]

/-- An admissible whole-process schedule of a driver run: the
main-goroutine prefix, then any interleaving of the worker goroutine
bodies, then (after the `wg.Wait()` join) the main-goroutine suffix. -/
def schedules (r : DriverRun) (s : List Ev) : Prop :=
  ∃ w, InterleavesN r.workers w ∧ s = r.pre ++ w ++ r.post

/-! ## Shapes of the per-phase event lists -/

/-- Is the event a fatal-exit log? -/
def isFatal : Ev → Bool
  | .fatal _ => true
  | _ => false

/-- Events the packing phase can emit. -/
def isPackEv (e : Ev) : Bool := isPackSeq e || isFatal e

/-- Events the setup phase can emit. -/
def isSetupEv : Ev → Bool
  | .morassNew _ => true
  | .palsNew _ => true
  | .fatal _ => true
  | _ => false

/-- Events the optimise phase can emit. -/
def isOptEv : Ev → Bool
  | .optimise => true
  | .fatal _ => true
  | _ => false

/-- Events the index phase can emit. -/
def isIndexEv : Ev → Bool
  | .buildIndex => true
  | .share => true
  | .fatal _ => true
  | _ => false

/-- Events a strand pass can emit. -/
def isPassEv : Ev → Bool
  | .align _ _ => true
  | .writeTraps _ => true
  | .writeHits _ _ => true
  | .fatal _ => true
  | _ => false

/-- Events the post-join phase can emit. -/
def isPostEv : Ev → Bool
  | .wgWait => true
  | .cleanUp _ => true
  | .finished => true
  | _ => false

theorem countP_eq_zero_of_all {l : List Ev} {k p : Ev → Bool}
    (hall : l.all k = true) (himp : ∀ e, k e = true → p e = false) :
    l.countP p = 0 := by
  rw [List.countP_eq_zero]
  intro a ha
  simp [himp a (List.all_eq_true.mp hall a ha)]

theorem packPhase_all (cfg : Config) (env : Env) :
    (packPhase cfg env).1.all isPackEv = true := by
  unfold packPhase
  split
  · rfl
  · split
    · rfl
    · split
      · rfl
      · split
        · rfl
        · split
          · rfl
          · split
            · rfl
            · split <;> rfl

theorem setupPhase_all (cfg : Config) (env : Env) :
    (setupPhase cfg env).1.all isSetupEv = true := by
  unfold setupPhase
  split
  · rfl
  · split
    · rfl
    · split
      · split <;> rfl
      · rfl

theorem optimisePhase_all (cfg : Config) (env : Env) :
    (optimisePhase cfg env).1.all isOptEv = true := by
  unfold optimisePhase
  split <;> rfl

theorem indexPhase_all (cfg : Config) (env : Env) :
    (indexPhase cfg env).1.all isIndexEv = true := by
  unfold indexPhase
  split
  · rfl
  · split <;> rfl

theorem trapStep_all (cfg : Config) (env : Env) (comp : Bool) :
    (trapStep cfg env comp).1.all isPassEv = true := by
  unfold trapStep
  split
  · split <;> rfl
  · rfl

theorem passBody_all (cfg : Config) (env : Env) (inst : Nat) (comp : Bool) :
    (passBody cfg env inst comp).1.all isPassEv = true := by
  have htr := trapStep_all cfg env comp
  rw [List.all_eq_true] at htr
  unfold passBody
  split
  · rfl
  · split
    · split <;>
        (rw [List.all_eq_true]
         intro e he
         rcases List.mem_cons.mp he with rfl | he
         · rfl
         · rcases List.mem_append.mp he with he | he
           · exact htr e he
           · simp only [List.mem_cons, List.mem_singleton, List.not_mem_nil, or_false] at he
             rcases he with rfl | rfl <;> rfl)
    · rw [List.all_eq_true]
      intro e he
      rcases List.mem_cons.mp he with rfl | he
      · rfl
      · exact htr e he

theorem postPhase_all (cfg : Config) :
    (postPhase cfg).all isPostEv = true := by
  unfold postPhase
  split <;> rfl

theorem alignPhase_pre_all (cfg : Config) (env : Env) :
    (alignPhase cfg env).1.all isPassEv = true := by
  simp only [alignPhase]
  split
  · rfl
  · split
    · split
      · rw [List.all_append, passBody_all, passBody_all]; rfl
      · exact passBody_all cfg env 0 false
    · exact passBody_all cfg env 0 false

theorem alignPhase_workers_all (cfg : Config) (env : Env) :
    ∀ w ∈ (alignPhase cfg env).2.1, w.all isPassEv = true := by
  simp only [alignPhase]
  split
  · intro w hw
    simp only [List.mem_cons, List.mem_singleton, List.not_mem_nil, or_false] at hw
    rcases hw with rfl | rfl <;> exact passBody_all ..
  · split
    · split
      · intro w hw; cases hw
      · intro w hw; cases hw
    · intro w hw; cases hw

theorem optimisePhase_head (cfg : Config) (env : Env) :
    ∃ tail, (optimisePhase cfg env).1 = .optimise :: tail ∧
      tail.all isFatal = true := by
  unfold optimisePhase
  split
  · exact ⟨_, rfl, rfl⟩
  · exact ⟨[], rfl, rfl⟩

theorem optimisePhase_count (cfg : Config) (env : Env) :
    (optimisePhase cfg env).1.countP isOptimise = 1 := by
  unfold optimisePhase
  split <;> rfl

theorem indexPhase_count (cfg : Config) (env : Env) :
    (indexPhase cfg env).1.countP isBuildIndex = 1 := by
  unfold indexPhase
  split
  · rfl
  · split <;> rfl

theorem indexPhase_head (cfg : Config) (env : Env) :
    ∃ tail, (indexPhase cfg env).1 = .buildIndex :: tail ∧
      tail.all (fun e => !isBuildIndex e && !isPackSeq e && !isWorkerOp e) = true := by
  unfold indexPhase
  split
  · exact ⟨_, rfl, rfl⟩
  · split
    · exact ⟨[.share], rfl, rfl⟩
    · exact ⟨[], rfl, rfl⟩

theorem indexPhase_share_threads (cfg : Config) (env : Env)
    (h : Ev.share ∈ (indexPhase cfg env).1) : 1 < cfg.threads := by
  by_contra hth
  revert h
  unfold indexPhase
  split
  · intro h
    simp only [List.mem_cons, List.mem_singleton] at h
    rcases h with h | h <;> simp_all
  · rw [if_neg hth]
    intro h
    simp only [List.mem_singleton] at h
    cases h

theorem indexPhase_share_of_ok (cfg : Config) (env : Env)
    (hth : 1 < cfg.threads) (hok : (indexPhase cfg env).2.isOk = true) :
    Ev.share ∈ (indexPhase cfg env).1 := by
  revert hok
  unfold indexPhase
  split
  · intro hok; cases hok
  · rw [if_pos hth]
    intro _
    simp

/-- The full case analysis of `driverRun`: a run dies in one of the four
setup phases, or reaches the alignment loop. -/
theorem driverRun_forms (cfg : Config) (env : Env) :
    (∃ m, (packPhase cfg env).2 = .error m ∧
      driverRun cfg env = ⟨(packPhase cfg env).1, [], [], 1, none, none, none⟩) ∨
    (∃ t q m, (packPhase cfg env).2 = .ok (t, q) ∧ (setupPhase cfg env).2 = .error m ∧
      driverRun cfg env =
        ⟨(packPhase cfg env).1 ++ (setupPhase cfg env).1, [], [], 1, some t, some q, none⟩) ∨
    (∃ t q m, (packPhase cfg env).2 = .ok (t, q) ∧ (setupPhase cfg env).2 = .ok () ∧
      (optimisePhase cfg env).2 = .error m ∧
      driverRun cfg env =
        ⟨(packPhase cfg env).1 ++ (setupPhase cfg env).1 ++ (optimisePhase cfg env).1,
         [], [], 1, some t, some q, none⟩) ∨
    (∃ t q d m, (packPhase cfg env).2 = .ok (t, q) ∧ (setupPhase cfg env).2 = .ok () ∧
      (optimisePhase cfg env).2 = .ok d ∧ (indexPhase cfg env).2 = .error m ∧
      driverRun cfg env =
        ⟨(packPhase cfg env).1 ++ (setupPhase cfg env).1 ++ (optimisePhase cfg env).1 ++
           (indexPhase cfg env).1, [], [], 1, some t, some q, some d⟩) ∨
    (∃ t q d, (packPhase cfg env).2 = .ok (t, q) ∧ (setupPhase cfg env).2 = .ok () ∧
      (optimisePhase cfg env).2 = .ok d ∧ (indexPhase cfg env).2 = .ok () ∧
      driverRun cfg env =
        ⟨(packPhase cfg env).1 ++ (setupPhase cfg env).1 ++ (optimisePhase cfg env).1 ++
           (indexPhase cfg env).1 ++ (alignPhase cfg env).1,
         (alignPhase cfg env).2.1,
         if (alignPhase cfg env).2.2 then postPhase cfg else [],
         if (alignPhase cfg env).2.2 then 0 else 1,
         some t, some q, some d⟩) := by
  rcases h1 : packPhase cfg env with ⟨e1, r1⟩
  rcases r1 with m1 | ⟨t, q⟩
  · exact Or.inl ⟨m1, by simp [h1], by simp [driverRun, h1]⟩
  · rcases h2 : setupPhase cfg env with ⟨e2, r2⟩
    rcases r2 with m2 | u2
    · exact Or.inr (Or.inl ⟨t, q, m2, by simp [h1], by simp [h2], by simp [driverRun, h1, h2]⟩)
    · rcases h3 : optimisePhase cfg env with ⟨e3, r3⟩
      rcases r3 with m3 | d
      · exact Or.inr (Or.inr (Or.inl ⟨t, q, m3, by simp [h1], by simp [h2], by simp [h3],
          by simp [driverRun, h1, h2, h3]⟩))
      · rcases h4 : indexPhase cfg env with ⟨e4, r4⟩
        rcases r4 with m4 | u4
        · exact Or.inr (Or.inr (Or.inr (Or.inl ⟨t, q, d, m4, by simp [h1], by simp [h2],
            by simp [h3], by simp [h4], by simp [driverRun, h1, h2, h3, h4]⟩)))
        · refine Or.inr (Or.inr (Or.inr (Or.inr ⟨t, q, d, by simp [h1], by simp [h2],
            by simp [h3], by simp [h4], ?_⟩)))
          rcases h5 : alignPhase cfg env with ⟨e5, ws, ok⟩
          rcases ok with _ | _ <;> simp [driverRun, h1, h2, h3, h4, h5]

/-! ## Counting events across a whole run -/

theorem countP_pack_zero (cfg : Config) (env : Env) (p : Ev → Bool)
    (himp : ∀ e, isPackEv e = true → p e = false) :
    (packPhase cfg env).1.countP p = 0 :=
  countP_eq_zero_of_all (packPhase_all cfg env) himp

theorem countP_setup_zero (cfg : Config) (env : Env) (p : Ev → Bool)
    (himp : ∀ e, isSetupEv e = true → p e = false) :
    (setupPhase cfg env).1.countP p = 0 :=
  countP_eq_zero_of_all (setupPhase_all cfg env) himp

theorem countP_opt_zero (cfg : Config) (env : Env) (p : Ev → Bool)
    (himp : ∀ e, isOptEv e = true → p e = false) :
    (optimisePhase cfg env).1.countP p = 0 :=
  countP_eq_zero_of_all (optimisePhase_all cfg env) himp

theorem countP_index_zero (cfg : Config) (env : Env) (p : Ev → Bool)
    (himp : ∀ e, isIndexEv e = true → p e = false) :
    (indexPhase cfg env).1.countP p = 0 :=
  countP_eq_zero_of_all (indexPhase_all cfg env) himp

theorem countP_alignPre_zero (cfg : Config) (env : Env) (p : Ev → Bool)
    (himp : ∀ e, isPassEv e = true → p e = false) :
    (alignPhase cfg env).1.countP p = 0 :=
  countP_eq_zero_of_all (alignPhase_pre_all cfg env) himp

theorem countP_workers_zero (cfg : Config) (env : Env) (p : Ev → Bool)
    (himp : ∀ e, isPassEv e = true → p e = false) :
    ((alignPhase cfg env).2.1.map (List.countP p)).sum = 0 := by
  rw [List.sum_eq_zero]
  intro x hx
  rw [List.mem_map] at hx
  obtain ⟨w, hw, rfl⟩ := hx
  exact countP_eq_zero_of_all (alignPhase_workers_all cfg env w hw) himp

theorem countP_post_zero (cfg : Config) (p : Ev → Bool)
    (himp : ∀ e, isPostEv e = true → p e = false) :
    (postPhase cfg).countP p = 0 :=
  countP_eq_zero_of_all (postPhase_all cfg) himp

theorem passBody_head (cfg : Config) (env : Env) (inst : Nat) (comp : Bool) :
    ∃ tail, (passBody cfg env inst comp).1 = .align inst comp :: tail := by
  unfold passBody
  split
  · exact ⟨_, rfl⟩
  · split
    · split <;> exact ⟨_, rfl⟩
    · exact ⟨_, rfl⟩

theorem alignPhase_has_align (cfg : Config) (env : Env) :
    0 < (alignPhase cfg env).1.countP isAlign +
      ((alignPhase cfg env).2.1.map (List.countP isAlign)).sum := by
  simp only [alignPhase]
  split
  · obtain ⟨tail, htail⟩ := passBody_head cfg env 0 false
    simp [htail, List.countP_cons, isAlign]
  · obtain ⟨tail, htail⟩ := passBody_head cfg env 0 false
    split
    · split
      · simp [htail, List.countP_append, List.countP_cons, isAlign]
      · simp [htail, List.countP_cons, isAlign]
    · simp [htail, List.countP_cons, isAlign]

/-- A run's whole trace contains exactly the `packSeq` events of the
packing phase: nothing after sequence loading packs a sequence. -/
theorem trace_countP_packSeq (cfg : Config) (env : Env) :
    (driverRun cfg env).trace.countP isPackSeq = (packPhase cfg env).1.countP isPackSeq := by
  have hs := countP_setup_zero cfg env isPackSeq
    (by intro e h; cases e <;> simp_all [isSetupEv, isPackSeq])
  have ho := countP_opt_zero cfg env isPackSeq
    (by intro e h; cases e <;> simp_all [isOptEv, isPackSeq])
  have hi := countP_index_zero cfg env isPackSeq
    (by intro e h; cases e <;> simp_all [isIndexEv, isPackSeq])
  have ha := countP_alignPre_zero cfg env isPackSeq
    (by intro e h; cases e <;> simp_all [isPassEv, isPackSeq])
  have hw := countP_workers_zero cfg env isPackSeq
    (by intro e h; cases e <;> simp_all [isPassEv, isPackSeq])
  have hp := countP_post_zero cfg isPackSeq
    (by intro e h; cases e <;> simp_all [isPostEv, isPackSeq])
  rcases driverRun_forms cfg env with ⟨m, h2, hd⟩ | ⟨t, q, m, h1, h2, hd⟩ |
    ⟨t, q, m, h1, h2, h3, hd⟩ | ⟨t, q, d, m, h1, h2, h3, h4, hd⟩ |
    ⟨t, q, d, h1, h2, h3, h4, hd⟩ <;>
      rw [hd] <;>
      simp [DriverRun.trace, List.countP_append, List.countP_flatten, hs, ho, hi, ha, hw]
  intro a _ hmem
  simpa using List.countP_eq_zero.mp hp a hmem

/-- `Optimise` is called exactly once in any run that survives sequence
loading and setup, and never otherwise. -/
theorem trace_countP_optimise (cfg : Config) (env : Env) :
    (driverRun cfg env).trace.countP isOptimise =
      if (packPhase cfg env).2.isOk = true ∧ (setupPhase cfg env).2.isOk = true
      then 1 else 0 := by
  have hk := countP_pack_zero cfg env isOptimise
    (by intro e h; cases e <;> simp_all [isPackEv, isPackSeq, isFatal, isOptimise])
  have hs := countP_setup_zero cfg env isOptimise
    (by intro e h; cases e <;> simp_all [isSetupEv, isOptimise])
  have ho := optimisePhase_count cfg env
  have hi := countP_index_zero cfg env isOptimise
    (by intro e h; cases e <;> simp_all [isIndexEv, isOptimise])
  have ha := countP_alignPre_zero cfg env isOptimise
    (by intro e h; cases e <;> simp_all [isPassEv, isOptimise])
  have hw := countP_workers_zero cfg env isOptimise
    (by intro e h; cases e <;> simp_all [isPassEv, isOptimise])
  have hp := countP_post_zero cfg isOptimise
    (by intro e h; cases e <;> simp_all [isPostEv, isOptimise])
  rcases driverRun_forms cfg env with ⟨m, h1, hd⟩ | ⟨t, q, m, h1, h2, hd⟩ |
    ⟨t, q, m, h1, h2, h3, hd⟩ | ⟨t, q, d, m, h1, h2, h3, h4, hd⟩ |
    ⟨t, q, d, h1, h2, h3, h4, hd⟩
  · rw [hd]; simp [DriverRun.trace, List.countP_append, hk, h1, Except.isOk, Except.toBool]
  · rw [hd]; simp [DriverRun.trace, List.countP_append, hk, hs, h2, Except.isOk, Except.toBool]
  · rw [hd]
    simp [DriverRun.trace, List.countP_append, hk, hs, ho, h1, h2, Except.isOk, Except.toBool]
  · rw [hd]
    simp [DriverRun.trace, List.countP_append, hk, hs, ho, hi, h1, h2, Except.isOk, Except.toBool]
  · rw [hd]
    simp [DriverRun.trace, List.countP_append, List.countP_flatten, hk, hs, ho, hi, ha,
      hw, h1, h2, Except.isOk, Except.toBool, apply_ite (List.countP isOptimise), hp]

/-- `BuildIndex` is called exactly once in any run that survives through
`Optimise`, and never otherwise. -/
theorem trace_countP_buildIndex (cfg : Config) (env : Env) :
    (driverRun cfg env).trace.countP isBuildIndex =
      if (packPhase cfg env).2.isOk = true ∧ (setupPhase cfg env).2.isOk = true ∧
         (optimisePhase cfg env).2.isOk = true
      then 1 else 0 := by
  have hk := countP_pack_zero cfg env isBuildIndex
    (by intro e h; cases e <;> simp_all [isPackEv, isPackSeq, isFatal, isBuildIndex])
  have hs := countP_setup_zero cfg env isBuildIndex
    (by intro e h; cases e <;> simp_all [isSetupEv, isBuildIndex])
  have ho := countP_opt_zero cfg env isBuildIndex
    (by intro e h; cases e <;> simp_all [isOptEv, isBuildIndex])
  have hi := indexPhase_count cfg env
  have ha := countP_alignPre_zero cfg env isBuildIndex
    (by intro e h; cases e <;> simp_all [isPassEv, isBuildIndex])
  have hw := countP_workers_zero cfg env isBuildIndex
    (by intro e h; cases e <;> simp_all [isPassEv, isBuildIndex])
  have hp := countP_post_zero cfg isBuildIndex
    (by intro e h; cases e <;> simp_all [isPostEv, isBuildIndex])
  rcases driverRun_forms cfg env with ⟨m, h1, hd⟩ | ⟨t, q, m, h1, h2, hd⟩ |
    ⟨t, q, m, h1, h2, h3, hd⟩ | ⟨t, q, d, m, h1, h2, h3, h4, hd⟩ |
    ⟨t, q, d, h1, h2, h3, h4, hd⟩
  · rw [hd]; simp [DriverRun.trace, List.countP_append, hk, h1, Except.isOk, Except.toBool]
  · rw [hd]; simp [DriverRun.trace, List.countP_append, hk, hs, h2, Except.isOk, Except.toBool]
  · rw [hd]
    simp [DriverRun.trace, List.countP_append, hk, hs, ho, h3, Except.isOk, Except.toBool]
  · rw [hd]
    simp [DriverRun.trace, List.countP_append, hk, hs, ho, hi, h1, h2, h3, Except.isOk, Except.toBool]
  · rw [hd]
    simp [DriverRun.trace, List.countP_append, List.countP_flatten, hk, hs, ho, hi, ha,
      hw, h1, h2, h3, Except.isOk, Except.toBool, apply_ite (List.countP isBuildIndex), hp]

/-- `Align` happens iff the run survives through `BuildIndex`. -/
theorem trace_countP_align (cfg : Config) (env : Env) :
    (0 < (driverRun cfg env).trace.countP isAlign) ↔
      ((packPhase cfg env).2.isOk = true ∧ (setupPhase cfg env).2.isOk = true ∧
       (optimisePhase cfg env).2.isOk = true ∧ (indexPhase cfg env).2.isOk = true) := by
  have hk := countP_pack_zero cfg env isAlign
    (by intro e h; cases e <;> simp_all [isPackEv, isPackSeq, isFatal, isAlign])
  have hs := countP_setup_zero cfg env isAlign
    (by intro e h; cases e <;> simp_all [isSetupEv, isAlign])
  have ho := countP_opt_zero cfg env isAlign
    (by intro e h; cases e <;> simp_all [isOptEv, isAlign])
  have hi := countP_index_zero cfg env isAlign
    (by intro e h; cases e <;> simp_all [isIndexEv, isAlign])
  have hp := countP_post_zero cfg isAlign
    (by intro e h; cases e <;> simp_all [isPostEv, isAlign])
  have hpos := alignPhase_has_align cfg env
  rcases driverRun_forms cfg env with ⟨m, h1, hd⟩ | ⟨t, q, m, h1, h2, hd⟩ |
    ⟨t, q, m, h1, h2, h3, hd⟩ | ⟨t, q, d, m, h1, h2, h3, h4, hd⟩ |
    ⟨t, q, d, h1, h2, h3, h4, hd⟩
  · rw [hd]; simp [DriverRun.trace, List.countP_append, hk, h1, Except.isOk, Except.toBool]
  · rw [hd]; simp [DriverRun.trace, List.countP_append, hk, hs, h2, Except.isOk, Except.toBool]
  · rw [hd]
    simp [DriverRun.trace, List.countP_append, hk, hs, ho, h3, Except.isOk, Except.toBool]
  · rw [hd]
    simp [DriverRun.trace, List.countP_append, hk, hs, ho, hi, h4, Except.isOk, Except.toBool]
  · rw [hd]
    have hpost : (if (alignPhase cfg env).2.2 = true then postPhase cfg
        else []).countP isAlign = 0 := by
      by_cases hb : (alignPhase cfg env).2.2 = true <;> simp [hb, hp]
    simp only [DriverRun.trace, List.countP_append, List.countP_flatten, hk, hs, ho, hi,
      hpost]
    simp only [h1, h2, h3, h4, Except.isOk, Except.toBool, and_self, iff_true]
    omega

theorem all_imp {l : List Ev} {k p : Ev → Bool}
    (hall : l.all k = true) (himp : ∀ e, k e = true → p e = true) : l.all p = true := by
  rw [List.all_eq_true] at hall ⊢
  exact fun e he => himp e (hall e he)

/-- Everything a run does after sequence loading is free of `packSeq`
events. -/
theorem trace_decomp_pack (cfg : Config) (env : Env) :
    ∃ rest, (driverRun cfg env).trace = (packPhase cfg env).1 ++ rest ∧
      rest.all (fun e => !isPackSeq e) = true := by
  have hs : (setupPhase cfg env).1.all (fun e => !isPackSeq e) = true :=
    all_imp (setupPhase_all cfg env)
      (fun e h => by cases e <;> first | rfl | simp [isSetupEv] at h)
  have ho : (optimisePhase cfg env).1.all (fun e => !isPackSeq e) = true :=
    all_imp (optimisePhase_all cfg env)
      (fun e h => by cases e <;> first | rfl | simp [isOptEv] at h)
  have hi : (indexPhase cfg env).1.all (fun e => !isPackSeq e) = true :=
    all_imp (indexPhase_all cfg env)
      (fun e h => by cases e <;> first | rfl | simp [isIndexEv] at h)
  have ha : (alignPhase cfg env).1.all (fun e => !isPackSeq e) = true :=
    all_imp (alignPhase_pre_all cfg env)
      (fun e h => by cases e <;> first | rfl | simp [isPassEv] at h)
  have hw : (alignPhase cfg env).2.1.flatten.all (fun e => !isPackSeq e) = true := by
    rw [List.all_eq_true]
    intro e he
    rw [List.mem_flatten] at he
    obtain ⟨w, hwmem, hew⟩ := he
    have hww : w.all (fun e => !isPackSeq e) = true :=
      all_imp (alignPhase_workers_all cfg env w hwmem)
        (fun e h => by cases e <;> first | rfl | simp [isPassEv] at h)
    exact List.all_eq_true.mp hww e hew
  have hp : (postPhase cfg).all (fun e => !isPackSeq e) = true :=
    all_imp (postPhase_all cfg)
      (fun e h => by cases e <;> first | rfl | simp [isPostEv] at h)
  rcases driverRun_forms cfg env with ⟨m, h1, hd⟩ | ⟨t, q, m, h1, h2, hd⟩ |
    ⟨t, q, m, h1, h2, h3, hd⟩ | ⟨t, q, d, m, h1, h2, h3, h4, hd⟩ |
    ⟨t, q, d, h1, h2, h3, h4, hd⟩ <;> rw [hd]
  · exact ⟨[], by simp [DriverRun.trace], rfl⟩
  · exact ⟨(setupPhase cfg env).1, by simp [DriverRun.trace], hs⟩
  · exact ⟨(setupPhase cfg env).1 ++ (optimisePhase cfg env).1,
      by simp [DriverRun.trace], by simp [List.all_append, hs, ho]⟩
  · exact ⟨(setupPhase cfg env).1 ++ (optimisePhase cfg env).1 ++ (indexPhase cfg env).1,
      by simp [DriverRun.trace], by simp [List.all_append, hs, ho, hi]⟩
  · refine ⟨(setupPhase cfg env).1 ++ (optimisePhase cfg env).1 ++ (indexPhase cfg env).1 ++
      (alignPhase cfg env).1 ++ (alignPhase cfg env).2.1.flatten ++
      (if (alignPhase cfg env).2.2 = true then postPhase cfg else []), by simp [DriverRun.trace], ?_⟩
    have hpost : (if (alignPhase cfg env).2.2 = true then postPhase cfg
        else []).all (fun e => !isPackSeq e) = true := by
      by_cases hb : (alignPhase cfg env).2.2 = true <;> simp [hb, hp]
    simp [List.all_append, hs, ho, hi, ha, hw, hpost]

/-- C3: a zero-length packed target, or in a non-self run a zero-length
packed query, kills the run with the corresponding "zero length" log
message, a non-zero exit code, and no index construction or alignment
event anywhere in the run. -/
theorem C3_empty_sequence_fails_fast :
    (∀ (cfg : Config) (env : Env) (t : Packed),
      cfg.targetName ≠ "" → env.pack cfg.targetName = .ok t → t.len = 0 →
      (driverRun cfg env).exit = 1 ∧
      Ev.fatal "Target sequence is zero length." ∈ (driverRun cfg env).trace ∧
      (driverRun cfg env).trace.countP (fun e => isBuildIndex e || isAlign e) = 0) ∧
    (∀ (cfg : Config) (env : Env) (t q : Packed),
      cfg.targetName ≠ "" → env.pack cfg.targetName = .ok t → t.len ≠ 0 →
      cfg.selfCompare = false → cfg.queryName ≠ "" →
      env.pack cfg.queryName = .ok q → q.len = 0 →
      (driverRun cfg env).exit = 1 ∧
      Ev.fatal "Query sequence is zero length." ∈ (driverRun cfg env).trace ∧
      (driverRun cfg env).trace.countP (fun e => isBuildIndex e || isAlign e) = 0) := by
  constructor
  · intro cfg env t htn hpk hlen
    have hpp : packPhase cfg env =
        ([.packSeq cfg.targetName, .fatal "Target sequence is zero length."],
         .error "Target sequence is zero length.") := by
      simp [packPhase, htn, hpk, hlen]
    refine ⟨?_, ?_, ?_⟩ <;>
      simp [driverRun, hpp, DriverRun.trace, List.countP_cons, isBuildIndex, isAlign]
  · intro cfg env t q htn hpk hlt hself hqn hpq hql
    have hpp : packPhase cfg env =
        ([.packSeq cfg.targetName, .packSeq cfg.queryName,
          .fatal "Query sequence is zero length."],
         .error "Query sequence is zero length.") := by
      simp [packPhase, htn, hpk, hlt, hself, hqn, hpq, hql]
    refine ⟨?_, ?_, ?_⟩ <;>
      simp [driverRun, hpp, DriverRun.trace, List.countP_cons, isBuildIndex, isAlign]

/-- C4: a missing target file name, or in a non-self run a missing query
file name, is reported immediately as a fatal configuration error: the
process exits non-zero and no packing (beyond the target already
loaded), index construction or alignment happens. -/
theorem C4_missing_file_is_fatal :
    (∀ (cfg : Config) (env : Env),
      cfg.targetName = "" →
      (driverRun cfg env).exit = 1 ∧
      Ev.fatal "No target provided." ∈ (driverRun cfg env).trace ∧
      (driverRun cfg env).trace.countP
        (fun e => isPackSeq e || isBuildIndex e || isAlign e) = 0) ∧
    (∀ (cfg : Config) (env : Env) (t : Packed),
      cfg.targetName ≠ "" → env.pack cfg.targetName = .ok t → t.len ≠ 0 →
      cfg.selfCompare = false → cfg.queryName = "" →
      (driverRun cfg env).exit = 1 ∧
      Ev.fatal "No query provided in non-self comparison." ∈ (driverRun cfg env).trace ∧
      (driverRun cfg env).trace.countP (fun e => isBuildIndex e || isAlign e) = 0) := by
  constructor
  · intro cfg env htn
    have hpp : packPhase cfg env =
        ([.fatal "No target provided."], .error "No target provided.") := by
      simp [packPhase, htn]
    refine ⟨?_, ?_, ?_⟩ <;>
      simp [driverRun, hpp, DriverRun.trace, List.countP_cons, isPackSeq, isBuildIndex, isAlign]
  · intro cfg env t htn hpk hlt hself hqn
    have hpp : packPhase cfg env =
        ([.packSeq cfg.targetName, .fatal "No query provided in non-self comparison."],
         .error "No query provided in non-self comparison.") := by
      simp [packPhase, htn, hpk, hlt, hself, hqn]
    refine ⟨?_, ?_, ?_⟩ <;>
      simp [driverRun, hpp, DriverRun.trace, List.countP_cons, isBuildIndex, isAlign]

theorem packPhase_self (cfg : Config) (env : Env) (hself : cfg.selfCompare = true) :
    (packPhase cfg env).1.countP isPackSeq ≤ 1 ∧
    (∀ n, Ev.packSeq n ∈ (packPhase cfg env).1 → n = cfg.targetName) ∧
    (∀ t q, (packPhase cfg env).2 = .ok (t, q) → q = t) := by
  unfold packPhase
  split
  · refine ⟨by simp [isPackSeq], ?_, ?_⟩
    · intro n hn
      simp at hn
    · intro t q h
      simp at h
  · split
    · refine ⟨by simp [List.countP_cons, isPackSeq], ?_, ?_⟩
      · intro n hn
        simpa using hn
      · intro t q h
        simp at h
    · split
      · refine ⟨by simp [List.countP_cons, isPackSeq], ?_, ?_⟩
        · intro n hn
          simpa using hn
        · intro t q h
          simp at h
      · refine ⟨by simp [List.countP_cons, isPackSeq], ?_, ?_⟩
        · intro n hn
          simpa using hn
        · intro t q h
          simp only [Except.ok.injEq, Prod.mk.injEq] at h
          exact h.2.symm.trans h.1

/-- C10: in a self comparison the query is bound to the very same packed
target value, at most one sequence file is ever packed, and any file
packed is the target file, whatever the `-query` flag holds. -/
theorem C10_self_comparison_reuses_target :
    ∀ (cfg : Config) (env : Env), cfg.selfCompare = true →
      (driverRun cfg env).query = (driverRun cfg env).target ∧
      (driverRun cfg env).trace.countP isPackSeq ≤ 1 ∧
      (∀ n, Ev.packSeq n ∈ (driverRun cfg env).trace → n = cfg.targetName) := by
  intro cfg env hself
  obtain ⟨hc, hm, hok⟩ := packPhase_self cfg env hself
  have hcount : (driverRun cfg env).trace.countP isPackSeq ≤ 1 := by
    rw [trace_countP_packSeq]; exact hc
  have hmem : ∀ n, Ev.packSeq n ∈ (driverRun cfg env).trace → n = cfg.targetName := by
    obtain ⟨rest, hco, hall⟩ := trace_decomp_pack cfg env
    intro n hn
    rw [hco, List.mem_append] at hn
    rcases hn with hn | hn
    · exact hm n hn
    · have := List.all_eq_true.mp hall _ hn
      simp [isPackSeq] at this
  refine ⟨?_, hcount, hmem⟩
  rcases driverRun_forms cfg env with ⟨m, h1, hd⟩ | ⟨t, q, m, h1, h2, hd⟩ |
    ⟨t, q, m, h1, h2, h3, hd⟩ | ⟨t, q, d, m, h1, h2, h3, h4, hd⟩ |
    ⟨t, q, d, h1, h2, h3, h4, hd⟩ <;> rw [hd] <;> simp [hok t q h1]

/-! ## Whole-run structural facts and schedule transfer -/

theorem schedules_countP {r : DriverRun} {s : List Ev} (p : Ev → Bool)
    (h : schedules r s) : s.countP p = r.trace.countP p := by
  obtain ⟨w, hw, rfl⟩ := h
  simp [DriverRun.trace, List.countP_append, List.countP_flatten, hw.countP_sum p]

theorem driverRun_pre_all (cfg : Config) (env : Env) :
    (driverRun cfg env).pre.all
      (fun e => isPackEv e || isSetupEv e || isOptEv e || isIndexEv e || isPassEv e) = true := by
  have h1 : (packPhase cfg env).1.all
      (fun e => isPackEv e || isSetupEv e || isOptEv e || isIndexEv e || isPassEv e) = true :=
    all_imp (packPhase_all cfg env)
        (fun e h => by cases e <;> first | rfl | simp [isPackEv, isPackSeq, isFatal] at h)
  have h2 : (setupPhase cfg env).1.all
      (fun e => isPackEv e || isSetupEv e || isOptEv e || isIndexEv e || isPassEv e) = true :=
    all_imp (setupPhase_all cfg env)
      (fun e h => by cases e <;> first | rfl | simp [isSetupEv] at h)
  have h3 : (optimisePhase cfg env).1.all
      (fun e => isPackEv e || isSetupEv e || isOptEv e || isIndexEv e || isPassEv e) = true :=
    all_imp (optimisePhase_all cfg env)
      (fun e h => by cases e <;> first | rfl | simp [isOptEv] at h)
  have h4 : (indexPhase cfg env).1.all
      (fun e => isPackEv e || isSetupEv e || isOptEv e || isIndexEv e || isPassEv e) = true :=
    all_imp (indexPhase_all cfg env)
      (fun e h => by cases e <;> first | rfl | simp [isIndexEv] at h)
  have h5 : (alignPhase cfg env).1.all
      (fun e => isPackEv e || isSetupEv e || isOptEv e || isIndexEv e || isPassEv e) = true :=
    all_imp (alignPhase_pre_all cfg env)
      (fun e h => by cases e <;> first | rfl | simp [isPassEv] at h)
  rcases driverRun_forms cfg env with ⟨m, hh1, hd⟩ | ⟨t, q, m, hh1, hh2, hd⟩ |
    ⟨t, q, m, hh1, hh2, hh3, hd⟩ | ⟨t, q, d, m, hh1, hh2, hh3, hh4, hd⟩ |
    ⟨t, q, d, hh1, hh2, hh3, hh4, hd⟩ <;> rw [hd] <;>
    simp [List.all_append, h1, h2, h3, h4, h5]

theorem driverRun_workers_all (cfg : Config) (env : Env) :
    ∀ w ∈ (driverRun cfg env).workers, w.all isPassEv = true := by
  rcases driverRun_forms cfg env with ⟨m, hh1, hd⟩ | ⟨t, q, m, hh1, hh2, hd⟩ |
    ⟨t, q, m, hh1, hh2, hh3, hd⟩ | ⟨t, q, d, m, hh1, hh2, hh3, hh4, hd⟩ |
    ⟨t, q, d, hh1, hh2, hh3, hh4, hd⟩ <;> rw [hd]
  · intro w hw; cases hw
  · intro w hw; cases hw
  · intro w hw; cases hw
  · intro w hw; cases hw
  · exact alignPhase_workers_all cfg env

theorem driverRun_post_shape (cfg : Config) (env : Env) :
    (driverRun cfg env).post = [] ∨ (driverRun cfg env).post = postPhase cfg := by
  rcases driverRun_forms cfg env with ⟨m, hh1, hd⟩ | ⟨t, q, m, hh1, hh2, hd⟩ |
    ⟨t, q, m, hh1, hh2, hh3, hd⟩ | ⟨t, q, d, m, hh1, hh2, hh3, hh4, hd⟩ |
    ⟨t, q, d, hh1, hh2, hh3, hh4, hd⟩ <;> rw [hd]
  · exact Or.inl rfl
  · exact Or.inl rfl
  · exact Or.inl rfl
  · exact Or.inl rfl
  · by_cases hb : (alignPhase cfg env).2.2 = true <;> simp [hb]

theorem postPhase_noneBefore (cfg : Config) :
    noneBefore isWgWait isCleanUp (postPhase cfg) = true := by
  simp [postPhase, noneBefore, isWgWait]

theorem noneBefore_of_no_q {p q : Ev → Bool} {u : List Ev}
    (hu : ∀ e ∈ u, q e = false) : noneBefore p q u = true := by
  induction u with
  | nil => rfl
  | cons a t ih =>
    by_cases hpa : p a = true
    · simp [noneBefore, hpa]
    · have := hu a (by simp)
      simp [noneBefore, hpa, this, ih fun e he => hu e (by simp [he])]

theorem noneAfter_cons_p {p q : Ev → Bool} {e : Ev} {X : List Ev} (hpe : p e = true)
    (hX : ∀ y ∈ X, q y = false ∧ p y = false) : noneAfter p q (e :: X) = true := by
  have hall : X.all (fun y => !q y) = true := by
    rw [List.all_eq_true]
    intro y hy
    simp [(hX y hy).1]
  simp [noneAfter, hpe, hall, noneAfter_of_no_p (fun y hy => (hX y hy).2)]

theorem noneAfter_append_no_p {p q : Ev → Bool} {u v : List Ev}
    (hu : ∀ e ∈ u, p e = false) (hv : noneAfter p q v = true) :
    noneAfter p q (u ++ v) = true := by
  refine noneAfter_append (noneAfter_of_no_p hu) hv ?_
  intro hany
  rw [List.any_eq_true] at hany
  obtain ⟨e, he, hpe⟩ := hany
  rw [hu e he] at hpe
  cases hpe

/-- Is the event a `share`? -/
def isShare : Ev → Bool
  | .share => true
  | _ => false

theorem indexPhase_count_share (cfg : Config) (env : Env) :
    (indexPhase cfg env).1.countP isShare =
      if (indexPhase cfg env).2.isOk = true ∧ 1 < cfg.threads then 1 else 0 := by
  unfold indexPhase
  rcases env.buildIndex with e | u
  · simp [Except.isOk, Except.toBool, List.countP_cons, isShare]
  · by_cases hth : 1 < cfg.threads <;>
      simp [hth, Except.isOk, Except.toBool, List.countP_cons, isShare]

/-- `Share` happens iff a second PALS instance exists and the run
survives through `BuildIndex`. -/
theorem trace_countP_share (cfg : Config) (env : Env) :
    (driverRun cfg env).trace.countP isShare =
      if (packPhase cfg env).2.isOk = true ∧ (setupPhase cfg env).2.isOk = true ∧
         (optimisePhase cfg env).2.isOk = true ∧ (indexPhase cfg env).2.isOk = true ∧
         1 < cfg.threads
      then 1 else 0 := by
  have hk := countP_pack_zero cfg env isShare
    (by intro e h; cases e <;> simp_all [isPackEv, isPackSeq, isFatal, isShare])
  have hs := countP_setup_zero cfg env isShare
    (by intro e h; cases e <;> simp_all [isSetupEv, isShare])
  have ho := countP_opt_zero cfg env isShare
    (by intro e h; cases e <;> simp_all [isOptEv, isShare])
  have hi := indexPhase_count_share cfg env
  have ha := countP_alignPre_zero cfg env isShare
    (by intro e h; cases e <;> simp_all [isPassEv, isShare])
  have hw := countP_workers_zero cfg env isShare
    (by intro e h; cases e <;> simp_all [isPassEv, isShare])
  have hp := countP_post_zero cfg isShare
    (by intro e h; cases e <;> simp_all [isPostEv, isShare])
  rcases driverRun_forms cfg env with ⟨m, h1, hd⟩ | ⟨t, q, m, h1, h2, hd⟩ |
    ⟨t, q, m, h1, h2, h3, hd⟩ | ⟨t, q, d, m, h1, h2, h3, h4, hd⟩ |
    ⟨t, q, d, h1, h2, h3, h4, hd⟩
  · rw [hd]; simp [DriverRun.trace, List.countP_append, hk, h1, Except.isOk, Except.toBool]
  · rw [hd]; simp [DriverRun.trace, List.countP_append, hk, hs, h2, Except.isOk, Except.toBool]
  · rw [hd]
    simp [DriverRun.trace, List.countP_append, hk, hs, ho, h3, Except.isOk, Except.toBool]
  · rw [hd]
    simp [DriverRun.trace, List.countP_append, hk, hs, ho, hi, h4, Except.isOk, Except.toBool]
  · rw [hd]
    have hpost : (if (alignPhase cfg env).2.2 = true then postPhase cfg
        else []).countP isShare = 0 := by
      by_cases hb : (alignPhase cfg env).2.2 = true <;> simp [hb, hp]
    simp [DriverRun.trace, List.countP_append, List.countP_flatten, hk, hs, ho, hi, ha,
      hw, hpost, h1, h2, h3, h4, Except.isOk, Except.toBool]

/-- C8: in any admissible schedule of any run, `Optimise` happens at most
once, exactly once when the run reaches `BuildIndex` or an alignment
pass, and no `BuildIndex` or `Align` event ever occurs before the
`Optimise` event. -/
theorem C8_optimise_once_before_index :
    ∀ (cfg : Config) (env : Env) (s : List Ev), schedules (driverRun cfg env) s →
      s.countP isOptimise ≤ 1 ∧
      ((0 < s.countP isBuildIndex ∨ 0 < s.countP isAlign) → s.countP isOptimise = 1) ∧
      noneBefore isOptimise (fun e => isBuildIndex e || isAlign e) s = true := by
  intro cfg env s hsch
  have hco := schedules_countP isOptimise hsch
  have hcb := schedules_countP isBuildIndex hsch
  have hca := schedules_countP isAlign hsch
  refine ⟨?_, ?_, ?_⟩
  · rw [hco, trace_countP_optimise]
    split <;> simp
  · intro hpos
    rw [hco, trace_countP_optimise]
    rcases hpos with hpos | hpos
    · rw [hcb, trace_countP_buildIndex] at hpos
      by_cases hA : ((packPhase cfg env).2.isOk = true ∧ (setupPhase cfg env).2.isOk = true ∧
          (optimisePhase cfg env).2.isOk = true)
      · rw [if_pos ⟨hA.1, hA.2.1⟩]
      · rw [if_neg hA] at hpos
        cases hpos
    · rw [hca] at hpos
      have h4 := (trace_countP_align cfg env).mp hpos
      rw [if_pos ⟨h4.1, h4.2.1⟩]
  · obtain ⟨w, hw, rfl⟩ := hsch
    have hpk : ∀ e ∈ (packPhase cfg env).1,
        isOptimise e = false ∧ (isBuildIndex e || isAlign e) = false := by
      intro e he
      have hk := List.all_eq_true.mp (packPhase_all cfg env) e he
      cases e <;> first | exact ⟨rfl, rfl⟩ | simp [isPackEv, isPackSeq, isFatal] at hk
    have hst : ∀ e ∈ (setupPhase cfg env).1,
        isOptimise e = false ∧ (isBuildIndex e || isAlign e) = false := by
      intro e he
      have hk := List.all_eq_true.mp (setupPhase_all cfg env) e he
      cases e <;> first | exact ⟨rfl, rfl⟩ | simp [isSetupEv] at hk
    obtain ⟨tl, htl, _⟩ := optimisePhase_head cfg env
    rcases driverRun_forms cfg env with ⟨m, hh1, hd⟩ | ⟨t, q, m, hh1, hh2, hd⟩ |
      ⟨t, q, m, hh1, hh2, hh3, hd⟩ | ⟨t, q, d, m, hh1, hh2, hh3, hh4, hd⟩ |
      ⟨t, q, d, hh1, hh2, hh3, hh4, hd⟩ <;> rw [hd] at hw ⊢
    · obtain rfl : w = [] := hw
      simp only [List.append_nil]
      exact noneBefore_of_no_q (fun e he => (hpk e he).2)
    · obtain rfl : w = [] := hw
      simp only [List.append_nil]
      rw [noneBefore_append_left _ hpk]
      exact noneBefore_of_no_q (fun e he => (hst e he).2)
    · obtain rfl : w = [] := hw
      simp only [List.append_nil, List.append_assoc]
      rw [noneBefore_append_left _ hpk, noneBefore_append_left _ hst, htl]
      simp [noneBefore, isOptimise]
    · obtain rfl : w = [] := hw
      simp only [List.append_nil, List.append_assoc]
      rw [noneBefore_append_left _ hpk, noneBefore_append_left _ hst, htl]
      simp [noneBefore, isOptimise]
    · simp only [List.append_assoc]
      rw [noneBefore_append_left _ hpk, noneBefore_append_left _ hst, htl]
      simp [noneBefore, isOptimise]

/-- C5: in any admissible schedule of any run, `BuildIndex` happens at
most once (exactly once when alignment happens), no event after the
`BuildIndex` event rebuilds the index or packs a sequence, a `Share`
event implies a second PALS instance exists (`threads > 1`), and every
two-instance run that aligns obtained the second index via `Share`. -/
theorem C5_index_built_once_then_frozen :
    ∀ (cfg : Config) (env : Env) (s : List Ev), schedules (driverRun cfg env) s →
      s.countP isBuildIndex ≤ 1 ∧
      (0 < s.countP isAlign → s.countP isBuildIndex = 1) ∧
      noneAfter isBuildIndex (fun e => isBuildIndex e || isPackSeq e) s = true ∧
      (Ev.share ∈ s → 1 < cfg.threads) ∧
      (1 < cfg.threads → 0 < s.countP isAlign → Ev.share ∈ s) := by
  intro cfg env s hsch
  have hcb := schedules_countP isBuildIndex hsch
  have hca := schedules_countP isAlign hsch
  have hcs := schedules_countP isShare hsch
  refine ⟨?_, ?_, ?_, ?_, ?_⟩
  · rw [hcb, trace_countP_buildIndex]
    split <;> simp
  · intro hpos
    rw [hca] at hpos
    have h4 := (trace_countP_align cfg env).mp hpos
    rw [hcb, trace_countP_buildIndex, if_pos ⟨h4.1, h4.2.1, h4.2.2.1⟩]
  · obtain ⟨w, hw, rfl⟩ := hsch
    have hpk : ∀ e ∈ (packPhase cfg env).1, isBuildIndex e = false := by
      intro e he
      have hk := List.all_eq_true.mp (packPhase_all cfg env) e he
      cases e <;> first | rfl | simp [isPackEv, isPackSeq, isFatal] at hk
    have hst : ∀ e ∈ (setupPhase cfg env).1, isBuildIndex e = false := by
      intro e he
      have hk := List.all_eq_true.mp (setupPhase_all cfg env) e he
      cases e <;> first | rfl | simp [isSetupEv] at hk
    have hop : ∀ e ∈ (optimisePhase cfg env).1, isBuildIndex e = false := by
      intro e he
      have hk := List.all_eq_true.mp (optimisePhase_all cfg env) e he
      cases e <;> first | rfl | simp [isOptEv] at hk
    have hqa : ∀ e ∈ (alignPhase cfg env).1,
        (isBuildIndex e || isPackSeq e) = false ∧ isBuildIndex e = false := by
      intro e he
      have hk := List.all_eq_true.mp (alignPhase_pre_all cfg env) e he
      cases e <;> first | exact ⟨rfl, rfl⟩ | simp [isPassEv] at hk
    have hqw : ∀ e ∈ w, (isBuildIndex e || isPackSeq e) = false ∧ isBuildIndex e = false := by
      intro e he
      obtain ⟨ww, hww, hew⟩ := hw.mem_flat e he
      have hk := List.all_eq_true.mp (driverRun_workers_all cfg env ww hww) e hew
      cases e <;> first | exact ⟨rfl, rfl⟩ | simp [isPassEv] at hk
    have hqp : ∀ e ∈ postPhase cfg,
        (isBuildIndex e || isPackSeq e) = false ∧ isBuildIndex e = false := by
      intro e he
      have hk := List.all_eq_true.mp (postPhase_all cfg) e he
      cases e <;> first | exact ⟨rfl, rfl⟩ | simp [isPostEv] at hk
    obtain ⟨t4, ht4, ht4all⟩ := indexPhase_head cfg env
    rcases driverRun_forms cfg env with ⟨m, hh1, hd⟩ | ⟨t, q, m, hh1, hh2, hd⟩ |
      ⟨t, q, m, hh1, hh2, hh3, hd⟩ | ⟨t, q, d, m, hh1, hh2, hh3, hh4, hd⟩ |
      ⟨t, q, d, hh1, hh2, hh3, hh4, hd⟩ <;> rw [hd] at hw ⊢
    · obtain rfl : w = [] := hw
      simp only [List.append_nil]
      exact noneAfter_of_no_p hpk
    · obtain rfl : w = [] := hw
      simp only [List.append_nil]
      refine noneAfter_of_no_p ?_
      intro e he
      rcases List.mem_append.mp he with h | h
      · exact hpk e h
      · exact hst e h
    · obtain rfl : w = [] := hw
      simp only [List.append_nil]
      refine noneAfter_of_no_p ?_
      intro e he
      rcases List.mem_append.mp he with h | h
      rcases List.mem_append.mp h with h | h
      · exact hpk e h
      · exact hst e h
      · exact hop e h
    · obtain rfl : w = [] := hw
      simp only [List.append_nil, List.append_assoc]
      refine noneAfter_append_no_p hpk (noneAfter_append_no_p hst
        (noneAfter_append_no_p hop ?_))
      rw [ht4]
      refine noneAfter_cons_p rfl ?_
      intro y hy
      have hk := List.all_eq_true.mp ht4all y hy
      cases y <;> first
        | exact ⟨rfl, rfl⟩
        | simp [isBuildIndex, isPackSeq, isWorkerOp] at hk
    · simp only [List.append_assoc]
      refine noneAfter_append_no_p hpk (noneAfter_append_no_p hst
        (noneAfter_append_no_p hop ?_))
      rw [ht4]
      rw [List.cons_append]
      refine noneAfter_cons_p rfl ?_
      intro y hy
      rcases List.mem_append.mp hy with h | h
      · have hk := List.all_eq_true.mp ht4all y h
        cases y <;> first
          | exact ⟨rfl, rfl⟩
          | simp [isBuildIndex, isPackSeq, isWorkerOp] at hk
      rcases List.mem_append.mp h with h | h
      · exact hqa y h
      rcases List.mem_append.mp h with h | h
      · exact hqw y h
      · revert h
        by_cases hb : (alignPhase cfg env).2.2 = true
        · rw [if_pos hb]
          exact hqp y
        · rw [if_neg hb]
          intro h
          cases h
  · intro hmem
    have hpos : 0 < s.countP isShare := by
      rw [List.countP_pos_iff]
      exact ⟨Ev.share, hmem, rfl⟩
    rw [hcs, trace_countP_share] at hpos
    by_cases hA : ((packPhase cfg env).2.isOk = true ∧ (setupPhase cfg env).2.isOk = true ∧
        (optimisePhase cfg env).2.isOk = true ∧ (indexPhase cfg env).2.isOk = true ∧
        1 < cfg.threads)
    · exact hA.2.2.2.2
    · rw [if_neg hA] at hpos
      cases hpos
  · intro hth hpos
    rw [hca] at hpos
    have h4 := (trace_countP_align cfg env).mp hpos
    have hone : s.countP isShare = 1 := by
      rw [hcs, trace_countP_share,
        if_pos ⟨h4.1, h4.2.1, h4.2.2.1, h4.2.2.2, hth⟩]
    have : 0 < s.countP isShare := by omega
    rw [List.countP_pos_iff] at this
    obtain ⟨e, he, hpe⟩ := this
    cases e <;> simp [isShare] at hpe
    exact he

/-- C6: in any admissible schedule of any run, no alignment, trapezoid
write or hit write ever occurs after a `CleanUp` event, and no `CleanUp`
event occurs before the `wg.Wait()` join point has been passed. -/
theorem C6_cleanup_only_after_join :
    ∀ (cfg : Config) (env : Env) (s : List Ev), schedules (driverRun cfg env) s →
      noneAfter isCleanUp isWorkerOp s = true ∧
      noneBefore isWgWait isCleanUp s = true := by
  intro cfg env s hsch
  obtain ⟨w, hw, rfl⟩ := hsch
  have hpre : ∀ e ∈ (driverRun cfg env).pre, isCleanUp e = false ∧ isWgWait e = false := by
    intro e he
    have hk := List.all_eq_true.mp (driverRun_pre_all cfg env) e he
    cases e <;> first
      | exact ⟨rfl, rfl⟩
      | simp [isPackEv, isPackSeq, isFatal, isSetupEv, isOptEv, isIndexEv, isPassEv] at hk
  have hwmem : ∀ e ∈ w, isCleanUp e = false ∧ isWgWait e = false := by
    intro e he
    obtain ⟨ww, hww, hew⟩ := hw.mem_flat e he
    have hk := List.all_eq_true.mp (driverRun_workers_all cfg env ww hww) e hew
    cases e <;> first | exact ⟨rfl, rfl⟩ | simp [isPassEv] at hk
  have hpost1 : noneAfter isCleanUp isWorkerOp (driverRun cfg env).post = true := by
    rcases driverRun_post_shape cfg env with h | h <;> rw [h]
    · rfl
    · refine noneAfter_of_no_q ?_
      intro e he
      have hk := List.all_eq_true.mp (postPhase_all cfg) e he
      cases e <;> first | rfl | simp [isPostEv] at hk
  have hpost2 : noneBefore isWgWait isCleanUp (driverRun cfg env).post = true := by
    rcases driverRun_post_shape cfg env with h | h <;> rw [h]
    · rfl
    · exact postPhase_noneBefore cfg
  constructor
  · refine noneAfter_append_no_p ?_ hpost1
    intro e he
    rcases List.mem_append.mp he with h | h
    · exact (hpre e h).1
    · exact (hwmem e h).1
  · simp only [List.append_assoc]
    rw [noneBefore_append_left _ (fun e he => ⟨(hpre e he).2, (hpre e he).1⟩)]
    rw [noneBefore_append_left _ (fun e he => ⟨(hwmem e he).2, (hwmem e he).1⟩)]
    exact hpost2

/-! ## Concrete runs used as witnesses -/

/-- A single-threaded non-self run over well-formed inputs. -/
def cfg0 : Config := ⟨"q.fa", "t.fa", false, false, "", false, 0, 0, 1⟩

/-- A two-instance same-strand run over well-formed inputs. -/
def cfgT2 : Config := ⟨"q.fa", "t.fa", false, true, "", false, 0, 0, 2⟩

/-- A run with no target file name. -/
def cfgNT : Config := ⟨"q.fa", "", false, false, "", false, 0, 0, 1⟩

/-- A self-comparison run. -/
def cfgS : Config := ⟨"ignored.fa", "t.fa", true, false, "", false, 0, 0, 1⟩

/-- An environment in which every library call succeeds and packed
sequences have length 10. -/
def env0 : Env :=
  ⟨fun _ => .ok ⟨0, 10⟩, .ok (), fun _ => .ok (), .ok ⟨400, 94 / 100⟩, .ok (),
   fun _ _ => .ok (), fun _ => .ok (), fun _ _ => .ok ()⟩

/-- An environment whose packed sequences are empty. -/
def envE : Env :=
  ⟨fun _ => .ok ⟨0, 0⟩, .ok (), fun _ => .ok (), .ok ⟨400, 94 / 100⟩, .ok (),
   fun _ _ => .ok (), fun _ => .ok (), fun _ _ => .ok ()⟩

/-- The canonical schedule of the `cfg0`/`env0` run. -/
def sched0 : List Ev := (driverRun cfg0 env0).pre ++ [] ++ (driverRun cfg0 env0).post

/-- The canonical schedule of the `cfgT2`/`env0` run. -/
def sched2 : List Ev := (driverRun cfgT2 env0).pre ++ [] ++ (driverRun cfgT2 env0).post

theorem C3_empty_sequence_fails_fast_witness :
    (driverRun cfg0 envE).exit = 1 ∧
    Ev.fatal "Target sequence is zero length." ∈ (driverRun cfg0 envE).trace ∧
    (driverRun cfg0 envE).trace.countP (fun e => isBuildIndex e || isAlign e) = 0 :=
  C3_empty_sequence_fails_fast.1 cfg0 envE ⟨0, 0⟩ (by decide) rfl rfl

theorem C4_missing_file_is_fatal_witness :
    (driverRun cfgNT env0).exit = 1 ∧
    Ev.fatal "No target provided." ∈ (driverRun cfgNT env0).trace ∧
    (driverRun cfgNT env0).trace.countP
      (fun e => isPackSeq e || isBuildIndex e || isAlign e) = 0 :=
  C4_missing_file_is_fatal.1 cfgNT env0 rfl

theorem C5_index_built_once_then_frozen_witness :
    sched2.countP isBuildIndex = 1 ∧
    noneAfter isBuildIndex (fun e => isBuildIndex e || isPackSeq e) sched2 = true ∧
    Ev.share ∈ sched2 := by
  have h := C5_index_built_once_then_frozen cfgT2 env0 sched2 ⟨[], rfl, rfl⟩
  exact ⟨h.2.1 (by decide), h.2.2.1, h.2.2.2.2 (by decide) (by decide)⟩

theorem C6_cleanup_only_after_join_witness :
    noneAfter isCleanUp isWorkerOp sched0 = true ∧
    noneBefore isWgWait isCleanUp sched0 = true :=
  C6_cleanup_only_after_join cfg0 env0 sched0 ⟨[], rfl, rfl⟩

theorem C8_optimise_once_before_index_witness :
    sched0.countP isOptimise = 1 ∧
    noneBefore isOptimise (fun e => isBuildIndex e || isAlign e) sched0 = true := by
  have h := C8_optimise_once_before_index cfg0 env0 sched0 ⟨[], rfl, rfl⟩
  exact ⟨h.2.1 (Or.inl (by decide)), h.2.2⟩

theorem C10_self_comparison_reuses_target_witness :
    (driverRun cfgS env0).query = (driverRun cfgS env0).target ∧
    (driverRun cfgS env0).trace.countP isPackSeq ≤ 1 := by
  have h := C10_self_comparison_reuses_target cfgS env0 rfl
  exact ⟨h.1, h.2.1⟩

/-! ## The mutex-guarded batch writer (src/krishna/write.go, WriteDPHits)

`WriteDPHits` takes the single package-level mutex `wlock`, converts each
hit to a `Pair` and writes it, and releases the lock on every return path
(via `defer`).  In the driver, output writes happen only through
`WriteDPHits` (the `writeHits` events of the driver model).  We model a
call as the action trace it performs on the shared writer: one `lock`,
the writes of the records actually emitted (conversion of a hit can fail,
ending the batch early, and a write error ends it after that write), and
one `unlock`.  Records are abstracted to the `Nat` ids of the hits; the
byte counts returned to the caller play no role in the claim. -/

/-- An action on the shared output writer, tagged with the strand-pass
thread (`false` = forward pass, `true` = reverse-complement pass). -/
inductive Act where
  | lock (tid : Bool)
  | unlock (tid : Bool)
  | write (tid : Bool) (rec : Nat)
deriving DecidableEq, Repr

/-- The records a `WriteDPHits` call actually writes: hits are processed
in order; a failing `NewPair` conversion stops the loop before writing
that hit, and a failing `w.Write` stops it after the write happened. -/
def writtenRecs (hits : List Nat) (pairOk wOk : Nat → Bool) : List Nat :=
  match hits with
  | [] => []
  | h :: rest =>
    if pairOk h then
      if wOk h then h :: writtenRecs rest pairOk wOk else [h]
    else []

/-- The writer-action trace of one `WriteDPHits` call: the whole batch
sits between a single `lock`/`unlock` pair (the `defer wlock.Unlock()`
runs on every return path). -/
def writeDPHitsActs (tid : Bool) (hits : List Nat) (pairOk wOk : Nat → Bool) : List Act :=
  .lock tid :: (writtenRecs hits pairOk wOk).map (Act.write tid) ++ [.unlock tid]

/-- The semantics of the single mutex `wlock` over an action sequence,
given the current holder: a `lock` requires the mutex free, an `unlock`
requires the caller to hold it, writes are unconstrained (program order
already places them inside their caller's critical section). -/
def mutexFrom : Option Bool → List Act → Bool
  | _, [] => true
  | s, .write _ _ :: rest => mutexFrom s rest
  | none, .lock t :: rest => mutexFrom (some t) rest
  | some t, .unlock u :: rest => t == u && mutexFrom none rest
  | _, _ => false

theorem Interleaves.swap {α : Type} {s xs ys : List α}
    (h : Interleaves s xs ys) : Interleaves s ys xs := by
  induction h with
  | nil => exact .nil
  | left a _ ih => exact .right a ih
  | right a _ ih => exact .left a ih

/-- While thread `t` holds the mutex, an interleaving must drain the rest
of its critical section (writes then `unlock`) before the other thread
can do anything, because the other thread's next action is a `lock`. -/
theorem mutex_absorb {t u : Bool} {ws ys s : List Act}
    (hws : ∀ a ∈ ws, ∃ tid n, a = Act.write tid n)
    (h : Interleaves s (ws ++ [Act.unlock t]) (Act.lock u :: ys))
    (hm : mutexFrom (some t) s = true) :
    s = ws ++ [Act.unlock t] ++ (Act.lock u :: ys) := by
  induction ws generalizing s with
  | nil =>
    cases h with
    | left a h2 =>
      simp [h2.nil_left]
    | right a h2 =>
      simp [mutexFrom] at hm
  | cons a ws1 ih =>
    obtain ⟨tid, n, rfl⟩ := hws a (by simp)
    cases h with
    | left b h2 =>
      rename_i s1
      have hm2 : mutexFrom (some t) s1 = true := by
        simpa [mutexFrom] using hm
      have := ih (fun x hx => hws x (by simp [hx])) h2 hm2
      simp [this]
    | right b h2 =>
      simp [mutexFrom] at hm

/-- C7: any mutex-respecting interleaving of the writer actions of the
two concurrent strand passes serialises the two `WriteDPHits` batches
whole: one call's entire lock-write-unlock trace precedes the other's.
In particular no record of one pass is ever interleaved inside a record
batch of the other. -/
theorem C7_writeDPHits_batches_serialized :
    ∀ (h0 h1 : List Nat) (p0 w0 p1 w1 : Nat → Bool) (s : List Act),
      Interleaves s (writeDPHitsActs false h0 p0 w0) (writeDPHitsActs true h1 p1 w1) →
      mutexFrom none s = true →
      s = writeDPHitsActs false h0 p0 w0 ++ writeDPHitsActs true h1 p1 w1 ∨
      s = writeDPHitsActs true h1 p1 w1 ++ writeDPHitsActs false h0 p0 w0 := by
  intro h0 h1 p0 w0 p1 w1 s hint hm
  have hws0 : ∀ a ∈ (writtenRecs h0 p0 w0).map (Act.write false), ∃ tid n, a = Act.write tid n := by
    intro a ha
    rw [List.mem_map] at ha
    obtain ⟨r, _, rfl⟩ := ha
    exact ⟨false, r, rfl⟩
  have hws1 : ∀ a ∈ (writtenRecs h1 p1 w1).map (Act.write true), ∃ tid n, a = Act.write tid n := by
    intro a ha
    rw [List.mem_map] at ha
    obtain ⟨r, _, rfl⟩ := ha
    exact ⟨true, r, rfl⟩
  cases hint with
  | left a h2 =>
    rename_i s1
    left
    have hm2 : mutexFrom (some false) s1 = true := by
      simpa [mutexFrom] using hm
    have := mutex_absorb hws0 h2 hm2
    simp [writeDPHitsActs, this]
  | right a h2 =>
    rename_i s1
    right
    have hm2 : mutexFrom (some true) s1 = true := by
      simpa [mutexFrom] using hm
    have := mutex_absorb hws1 h2.swap hm2
    simp [writeDPHitsActs, this]

/-- The forward pass writing hit 1 and the reverse pass writing hit 2. -/
def fwdBatch : List Act := writeDPHitsActs false [1] (fun _ => true) (fun _ => true)

/-- The reverse-complement batch of the witness scenario. -/
def revBatch : List Act := writeDPHitsActs true [2] (fun _ => true) (fun _ => true)

theorem C7_writeDPHits_batches_serialized_witness :
    fwdBatch ++ revBatch = fwdBatch ++ revBatch ∨
    fwdBatch ++ revBatch = revBatch ++ fwdBatch :=
  C7_writeDPHits_batches_serialized [1] [2] (fun _ => true) (fun _ => true)
    (fun _ => true) (fun _ => true) (fwdBatch ++ revBatch)
    (Interleaves.append_self fwdBatch revBatch) (by decide)

/-! ## The external spill store ("morass")

Modelled from the spec: the morass implementation lives in the biogo
library, outside this repository's sources; only its caller (the krishna
driver) is present.  Following the specification of the External Spill
Store: `Push` appends records to an in-memory chunk buffer; when the
buffer reaches `chunkSize` records it is sorted in memory by the
caller-supplied ordering key and flushed as an already-sorted run; on
finalisation the remaining partial buffer is sorted as a final run and a
k-way merge across all runs produces a single globally sorted logical
stream which replay then yields once, in order.  Records are generic and
ordered by a caller-supplied `Nat`-valued key. -/

def morassInsert {α : Type} (key : α → Nat) (a : α) : List α → List α
  | [] => [a]
  | b :: l => if key a ≤ key b then a :: b :: l else b :: morassInsert key a l

/-- The in-memory sort of a chunk buffer by the record ordering key. -/
def morassSort {α : Type} (key : α → Nat) : List α → List α
  | [] => []
  | a :: l => morassInsert key a (morassSort key l)

/-- One `Push`: append to the chunk buffer; at `chunk` records, sort the
buffer and flush it as a new run. -/
def morassPush {α : Type} (key : α → Nat) (chunk : Nat)
    (st : List (List α) × List α) (r : α) : List (List α) × List α :=
  let buf := st.2 ++ [r]
  if buf.length = chunk then (st.1 ++ [morassSort key buf], []) else (st.1, buf)

/-- Pushing a whole record stream into a fresh morass. -/
def morassPushAll {α : Type} (key : α → Nat) (chunk : Nat) (recs : List α) :
    List (List α) × List α :=
  recs.foldl (morassPush key chunk) ([], [])

/-- Finalisation: the partial in-memory buffer is sorted as a last run. -/
def morassFinalise {α : Type} (key : α → Nat) (chunk : Nat) (recs : List α) :
    List (List α) :=
  (morassPushAll key chunk recs).1 ++ [morassSort key (morassPushAll key chunk recs).2]

/-- Merge of two sorted runs, least key first. -/
def morassMerge {α : Type} (key : α → Nat) : List α → List α → List α
  | [], ys => ys
  | x :: xs, [] => x :: xs
  | x :: xs, y :: ys =>
    if key x ≤ key y then x :: morassMerge key xs (y :: ys)
    else y :: morassMerge key (x :: xs) ys
termination_by xs ys => xs.length + ys.length

/-- Replay after the sort phase: the k-way merge of all runs, modelled as
iterated two-way merging. -/
def morassReplay {α : Type} (key : α → Nat) (chunk : Nat) (recs : List α) : List α :=
  (morassFinalise key chunk recs).foldr (morassMerge key) []

theorem morassInsert_perm {α : Type} (key : α → Nat) (a : α) (l : List α) :
    (morassInsert key a l).Perm (a :: l) := by
  induction l with
  | nil => exact List.Perm.refl _
  | cons b t ih =>
    rw [morassInsert]
    by_cases hab : key a ≤ key b
    · rw [if_pos hab]
    · rw [if_neg hab]
      exact (ih.cons b).trans (List.Perm.swap a b t)

theorem morassSort_perm {α : Type} (key : α → Nat) (l : List α) :
    (morassSort key l).Perm l := by
  induction l with
  | nil => exact List.Perm.refl _
  | cons a t ih =>
    rw [morassSort]
    exact (morassInsert_perm key a (morassSort key t)).trans (ih.cons a)

theorem morassInsert_sorted {α : Type} (key : α → Nat) (a : α) {l : List α}
    (hl : List.Sorted (fun x y => key x ≤ key y) l) :
    List.Sorted (fun x y => key x ≤ key y) (morassInsert key a l) := by
  induction l with
  | nil => simp [morassInsert]
  | cons b t ih =>
    rw [List.sorted_cons] at hl
    rw [morassInsert]
    by_cases hab : key a ≤ key b
    · rw [if_pos hab, List.sorted_cons]
      refine ⟨?_, List.sorted_cons.mpr hl⟩
      intro c hc
      rcases List.mem_cons.mp hc with rfl | hc
      · exact hab
      · exact le_trans hab (hl.1 c hc)
    · rw [if_neg hab, List.sorted_cons]
      refine ⟨?_, ih hl.2⟩
      intro c hc
      rcases List.mem_cons.mp ((morassInsert_perm key a t).mem_iff.mp hc) with rfl | hc
      · exact le_of_not_le hab
      · exact hl.1 c hc

theorem morassSort_sorted {α : Type} (key : α → Nat) (l : List α) :
    List.Sorted (fun x y => key x ≤ key y) (morassSort key l) := by
  induction l with
  | nil => simp [morassSort]
  | cons a t ih =>
    rw [morassSort]
    exact morassInsert_sorted key a ih

theorem morassMerge_perm {α : Type} (key : α → Nat) (xs ys : List α) :
    (morassMerge key xs ys).Perm (xs ++ ys) := by
  induction xs, ys using morassMerge.induct key with
  | case1 ys => simp [morassMerge]
  | case2 x xs => simp [morassMerge]
  | case3 x xs y ys h ih =>
    rw [morassMerge, if_pos h]
    exact ih.cons x
  | case4 x xs y ys h ih =>
    rw [morassMerge, if_neg h]
    exact (ih.cons y).trans List.perm_middle.symm

theorem morassMerge_sorted {α : Type} (key : α → Nat) (xs ys : List α)
    (hxs : List.Sorted (fun x y => key x ≤ key y) xs)
    (hys : List.Sorted (fun x y => key x ≤ key y) ys) :
    List.Sorted (fun x y => key x ≤ key y) (morassMerge key xs ys) := by
  induction xs, ys using morassMerge.induct key with
  | case1 ys => simpa [morassMerge] using hys
  | case2 x xs => simpa [morassMerge] using hxs
  | case3 x xs y ys h ih =>
    rw [List.sorted_cons] at hxs
    rw [morassMerge, if_pos h, List.sorted_cons]
    refine ⟨?_, ih hxs.2 hys⟩
    intro b hb
    rcases List.mem_append.mp ((morassMerge_perm key xs (y :: ys)).mem_iff.mp hb) with hb | hb
    · exact hxs.1 b hb
    · rcases List.mem_cons.mp hb with rfl | hb
      · exact h
      · exact le_trans h ((List.sorted_cons.mp hys).1 b hb)
  | case4 x xs y ys h ih =>
    rw [List.sorted_cons] at hys
    rw [morassMerge, if_neg h, List.sorted_cons]
    refine ⟨?_, ih hxs hys.2⟩
    intro b hb
    rcases List.mem_append.mp ((morassMerge_perm key (x :: xs) ys).mem_iff.mp hb) with hb | hb
    · rcases List.mem_cons.mp hb with rfl | hb
      · exact le_of_not_le h
      · exact le_trans (le_of_not_le h) ((List.sorted_cons.mp hxs).1 b hb)
    · exact hys.1 b hb

theorem morassPush_perm {α : Type} (key : α → Nat) (chunk : Nat)
    (st : List (List α) × List α) (r : α) :
    ((morassPush key chunk st r).1.flatten ++ (morassPush key chunk st r).2).Perm
      (st.1.flatten ++ st.2 ++ [r]) := by
  unfold morassPush
  by_cases h : (st.2 ++ [r]).length = chunk
  · rw [if_pos h]
    simp only [List.flatten_append, List.flatten_cons, List.flatten_nil, List.append_nil]
    rw [List.append_assoc]
    exact List.Perm.append_left _ (morassSort_perm key (st.2 ++ [r]))
  · rw [if_neg h]
    simp [List.append_assoc]

theorem morassPushAll_perm_aux {α : Type} (key : α → Nat) (chunk : Nat) :
    ∀ (recs : List α) (st : List (List α) × List α),
      ((recs.foldl (morassPush key chunk) st).1.flatten ++
        (recs.foldl (morassPush key chunk) st).2).Perm
        (st.1.flatten ++ st.2 ++ recs) := by
  intro recs
  induction recs with
  | nil => intro st; simp
  | cons r t ih =>
    intro st
    rw [List.foldl_cons]
    refine (ih (morassPush key chunk st r)).trans ?_
    refine (List.Perm.append_right t (morassPush_perm key chunk st r)).trans ?_
    rw [List.append_assoc (st.1.flatten ++ st.2) [r] t]
    simp

theorem morassPushAll_runs_sorted {α : Type} (key : α → Nat) (chunk : Nat) :
    ∀ (recs : List α) (st : List (List α) × List α),
      (∀ run ∈ st.1, List.Sorted (fun x y => key x ≤ key y) run) →
      ∀ run ∈ (recs.foldl (morassPush key chunk) st).1,
        List.Sorted (fun x y => key x ≤ key y) run := by
  intro recs
  induction recs with
  | nil => intro st hst; exact hst
  | cons r t ih =>
    intro st hst
    rw [List.foldl_cons]
    refine ih (morassPush key chunk st r) ?_
    intro run hrun
    unfold morassPush at hrun
    by_cases h : (st.2 ++ [r]).length = chunk
    · rw [if_pos h] at hrun
      rcases List.mem_append.mp hrun with h2 | h2
      · exact hst run h2
      · rcases List.mem_singleton.mp h2 with rfl
        exact morassSort_sorted key _
    · rw [if_neg h] at hrun
      exact hst run hrun

theorem morassReplay_perm_flatten {α : Type} (key : α → Nat) (runs : List (List α)) :
    (runs.foldr (morassMerge key) []).Perm runs.flatten := by
  induction runs with
  | nil => simp
  | cons run rest ih =>
    rw [List.foldr_cons, List.flatten_cons]
    exact (morassMerge_perm key run _).trans (List.Perm.append_left run ih)

theorem morassReplay_sorted_of_runs {α : Type} (key : α → Nat) (runs : List (List α))
    (h : ∀ run ∈ runs, List.Sorted (fun x y => key x ≤ key y) run) :
    List.Sorted (fun x y => key x ≤ key y) (runs.foldr (morassMerge key) []) := by
  induction runs with
  | nil => simp
  | cons run rest ih =>
    rw [List.foldr_cons]
    exact morassMerge_sorted key run _ (h run (by simp))
      (ih fun r hr => h r (by simp [hr]))

/-- C2: pushing any record stream into a morass, sorting and replaying
yields exactly the pushed multiset of records — none lost, none
duplicated — in non-decreasing order of the caller-supplied record key,
for any chunk size not exceeding the record count. -/
theorem C2_morass_roundtrip :
    ∀ (α : Type) (key : α → Nat) (chunk : Nat) (recs : List α),
      chunk ≤ recs.length →
      (morassReplay key chunk recs).Perm recs ∧
      List.Sorted (fun x y => key x ≤ key y) (morassReplay key chunk recs) := by
  intro α key chunk recs _
  constructor
  · unfold morassReplay
    refine (morassReplay_perm_flatten key _).trans ?_
    unfold morassFinalise
    simp only [List.flatten_append, List.flatten_cons, List.flatten_nil, List.append_nil]
    refine ((List.Perm.append_left _ (morassSort_perm key _)).trans ?_)
    simpa using morassPushAll_perm_aux key chunk recs ([], [])
  · unfold morassReplay
    refine morassReplay_sorted_of_runs key _ ?_
    intro run hrun
    unfold morassFinalise at hrun
    rcases List.mem_append.mp hrun with h2 | h2
    · exact morassPushAll_runs_sorted key chunk recs ([], []) (by intro r hr; cases hr) run h2
    · rcases List.mem_singleton.mp h2 with rfl
      exact morassSort_sorted key _

theorem C2_morass_roundtrip_witness :
    (morassReplay (fun n : Nat => n) 2 [3, 1, 2, 1]).Perm [3, 1, 2, 1] ∧
    List.Sorted (fun x y : Nat => x ≤ y)
      (morassReplay (fun n : Nat => n) 2 [3, 1, 2, 1]) :=
  C2_morass_roundtrip Nat (fun n => n) 2 [3, 1, 2, 1] (by decide)
